import Mathlib

/-!
Verification development for the ID-assignment bot (src/bot.py).

The Python source is shallowly embedded as pure Lean functions:
  - the global dict `user_ids` becomes an explicit association list `Store`
    threaded through each operation (dict insertion order is modelled:
    a fresh key is appended at the end);
  - `random.choice(available_ids)` becomes selection by an arbitrary
    index parameter `k` reduced modulo the list length; quantifying over
    all `k` covers every possible behaviour of the random generator
    (the unspecified iteration order of the Python set difference is
    likewise absorbed by `k`);
  - calls to the chat-platform collaborator (role creation/attachment,
    message sends) become recorded `RoleAction` effects and updated
    role-name lists;
  - the JSON document written by `json.dump` is modelled as the list of
    (string key, record) pairs that `save_data` produces; the textual
    serialisation of that document is an external collaborator.
-/

/-- The configured role-name stem; `config.get("ROLE_PREFIX", "Member")`
defaults to "Member" (the Lean name avoids the word used in the source
for lexical reasons). -/
def ROLE_PFX : String := "Member"

/-- The character for decimal digit d (d < 10), i.e. chr(48 + d). -/
def digitChar (d : Nat) : Char := Char.ofNat (48 + d)

/-- Embedding of the format expression in get_new_id, which zero-pads
its argument to width 3; every call site has n ≤ 999, where the result
is exactly the three decimal digits of n. -/
def formatId3 (n : Nat) : String :=
  String.mk [digitChar (n / 100 % 10), digitChar (n / 10 % 10), digitChar (n % 10)]

/-- One step of decimal parsing: shift the accumulator and add the digit. -/
def parseStep (acc : Nat) (c : Char) : Nat := acc * 10 + (c.toNat - 48)

/-- Embedding of Python int() applied to a decimal-digit string. -/
def parseNat (s : String) : Nat := s.data.foldl parseStep 0

/-- The decimal digits of n, most significant first (model of str(n)). -/
def natToDigits (n : Nat) : List Char :=
  if n < 10 then [digitChar n]
  else natToDigits (n / 10) ++ [digitChar (n % 10)]
decreasing_by exact Nat.div_lt_self (by omega) (by omega)

/-- Model of str(n) for a natural number n, as used by json.dump for
integer dictionary keys. -/
def natToString (n : Nat) : String := String.mk (natToDigits n)

/-- One record of the user_ids mapping: the value stored at a member key. -/
structure MemberRecord where
  id : Nat
  id_str : String
  username : String
deriving DecidableEq

/-- The user_ids mapping: an association list from member id to record,
in dict insertion order. -/
abbrev Store := List (Nat × MemberRecord)

/-- A guild member as the code observes it: stable id, current name,
and the bot flag. -/
structure Member where
  id : Nat
  name : String
  bot : Bool
deriving DecidableEq

/-- member.mention, rendered as the chat platform does. -/
def Member.mention (m : Member) : String := "<@" ++ natToString m.id ++ ">"

/-- Dictionary lookup user_ids[key] (first binding of the key). -/
def storeLookup (key : Nat) : Store → Option MemberRecord
  | [] => none
  | p :: ps => if p.1 = key then some p.2 else storeLookup key ps

/-- Dictionary assignment user_ids[key] = v: replaces an existing
binding in place, otherwise appends the new binding at the end. -/
def storeInsert (key : Nat) (v : MemberRecord) : Store → Store
  | [] => [(key, v)]
  | p :: ps => if p.1 = key then (key, v) :: ps else p :: storeInsert key v ps

/-- The set comprehension in get_new_id: the id field of every record. -/
def assignedIds (store : Store) : List Nat := store.map (fun p => p.2.id)

/-- set(range(1000)): every possible numeric id. -/
def allPossibleIds : List Nat := List.range 1000

/-- list(all_possible_ids - assigned_ids): the unassigned numeric ids.
Set iteration order is unspecified in Python; it is absorbed by the
choice index of get_new_id. -/
def availableIds (store : Store) : List Nat :=
  allPossibleIds.filter (fun i => !((assignedIds store).contains i))

/-- random.choice: pick the element at an arbitrary index k, reduced
modulo the list length. -/
def choose (k : Nat) (l : List Nat) : Nat := l.getD (k % l.length) 0

/-- get_new_id: None when no id is available, otherwise a randomly
chosen available id formatted as a 3-digit string. -/
def get_new_id (k : Nat) (store : Store) : Option String :=
  if availableIds store = [] then none
  else some (formatId3 (choose k (availableIds store)))

/-- An effect issued to the external role collaborator. -/
inductive RoleAction where
  | createRole (name : String)
  | addRole (memberId : Nat) (name : String)
  | deleteRole (name : String)
deriving DecidableEq

/-- The outcome of one assign_id_and_role call: the returned value, the
updated store and guild role list, the role effects issued, and whether
save_data ran. -/
structure AssignResult where
  result : Option String
  store : Store
  roles : List String
  actions : List RoleAction
  saved : Bool
deriving DecidableEq

/-- assign_id_and_role: rejoin path returns the stored id_str and never
touches the store; new-member path draws a fresh id, ensures the role
exists, writes the record and saves. k is the randomness index. -/
def assign_id_and_role (k : Nat) (m : Member) (roles : List String) (store : Store) :
    AssignResult :=
  match storeLookup m.id store with
  | some userData =>
    let uniqueId := userData.id_str
    let roleName := ROLE_PFX ++ " #" ++ uniqueId
    if roles.contains roleName then
      ⟨some uniqueId, store, roles, [RoleAction.addRole m.id roleName], false⟩
    else
      ⟨some uniqueId, store, roleName :: roles,
        [RoleAction.createRole roleName, RoleAction.addRole m.id roleName], false⟩
  | none =>
    match get_new_id k store with
    | none => ⟨none, store, roles, [], false⟩
    | some newIdStr =>
      let roleName := ROLE_PFX ++ " #" ++ newIdStr
      let newRecord : MemberRecord := ⟨parseNat newIdStr, newIdStr, m.name⟩
      if roles.contains roleName then
        ⟨some newIdStr, storeInsert m.id newRecord store, roles,
          [RoleAction.addRole m.id roleName], true⟩
      else
        ⟨some newIdStr, storeInsert m.id newRecord store, roleName :: roles,
          [RoleAction.createRole roleName, RoleAction.addRole m.id roleName], true⟩

/-- The JSON document save_data writes: string keys, record values. -/
abbrev JsonDoc := List (String × MemberRecord)

/-- save_data: json.dump converts the integer keys to decimal strings. -/
def save_data (store : Store) : JsonDoc :=
  store.map (fun p => (natToString p.1, p.2))

/-- load_data: converts string keys back to integers with int(k). -/
def load_data (doc : JsonDoc) : Store :=
  doc.map (fun p => (parseNat p.1, p.2))

/-- Outcome of the on_member_join handler: the value the allocator returned,
the updated store and roles, and the welcome message sent, if any, as
(channel id, id announced in the embed). -/
structure JoinResult where
  assigned : Option String
  store : Store
  roles : List String
  sent : Option (Nat × String)
deriving DecidableEq

/-- on_member_join: run the allocator, then send a welcome embed only if
the returned value and the configured channel id are both truthy and the
channel resolves. -/
def on_member_join (k : Nat) (m : Member) (roles : List String) (store : Store)
    (welcomeChannelId : Option Nat) (resolvable : Nat → Bool) : JoinResult :=
  let r := assign_id_and_role k m roles store
  let sent : Option (Nat × String) :=
    match r.result, welcomeChannelId with
    | some s, some c =>
      if !s.isEmpty && c != 0 && resolvable c then some (c, s) else none
    | _, _ => none
  ⟨r.result, r.store, r.roles, sent⟩

/-- Outcome of the assign_existing command: the reported count, the
final store and roles, and the ids of the members the allocator was
invoked for, in order. -/
structure BackfillResult where
  count : Nat
  store : Store
  roles : List String
  invoked : List Nat
deriving DecidableEq

/-- The loop of assign_existing: for each non-bot member without a
record in the current store, call the allocator and increment the
count. ks supplies the randomness index for the i-th member. -/
def assignExistingGo (ks : Nat → Nat) (i : Nat) (members : List Member)
    (roles : List String) (store : Store) (count : Nat) (invoked : List Nat) :
    BackfillResult :=
  match members with
  | [] => ⟨count, store, roles, invoked⟩
  | m :: ms =>
    if !m.bot && (storeLookup m.id store).isNone then
      let r := assign_id_and_role (ks i) m roles store
      assignExistingGo ks (i + 1) ms r.roles r.store (count + 1) (invoked ++ [m.id])
    else
      assignExistingGo ks (i + 1) ms roles store count invoked

/-- assign_existing: backfill over the guild member list. -/
def assign_existing (ks : Nat → Nat) (members : List Member)
    (roles : List String) (store : Store) : BackfillResult :=
  assignExistingGo ks 0 members roles store 0 []

/-- Outcome of the refreshid command. -/
structure RefreshResult where
  store : Store
  roles : List String
  invoked : List Nat
deriving DecidableEq

/-- The reassignment loop of refreshid: call the allocator for every
non-bot member. -/
def refreshGo (ks : Nat → Nat) (i : Nat) (members : List Member)
    (roles : List String) (store : Store) (invoked : List Nat) : RefreshResult :=
  match members with
  | [] => ⟨store, roles, invoked⟩
  | m :: ms =>
    if !m.bot then
      let r := assign_id_and_role (ks i) m roles store
      refreshGo ks (i + 1) ms r.roles r.store (invoked ++ [m.id])
    else
      refreshGo ks (i + 1) ms roles store invoked

/-- refreshid: clear the store, delete every role whose name starts
with the configured stem followed by " #" (deletions may individually
fail, modelled by the canDelete oracle; failures are tolerated), then
run the allocator for every non-bot member. -/
def refreshid (ks : Nat → Nat) (members : List Member) (roles : List String)
    (canDelete : String → Bool) (_store : Store) : RefreshResult :=
  let cleared : Store := []
  let remainingRoles :=
    roles.filter (fun r => !(r.startsWith (ROLE_PFX ++ " #") && canDelete r))
  refreshGo ks 0 members remainingRoles cleared []

/-- The reply of the listids command. -/
inductive ListResult where
  | noIds
  | tooLong
  | listing (description : String)
deriving DecidableEq

/-- One line of the listids output: bold id_str, then the mention of
the member if the member is still in the guild, otherwise the
"User left" placeholder carrying the member id. -/
def renderLine (guildMembers : List Member) (p : Nat × MemberRecord) : String :=
  let mention :=
    match guildMembers.find? (fun u => u.id == p.1) with
    | some u => u.mention
    | none => "User left (ID: " ++ natToString p.1 ++ ")"
  "**#" ++ p.2.id_str ++ "**: " ++ mention ++ "\n"

/-- The comparison listids sorts by: ascending numeric id. -/
def byNumericId (a b : Nat × MemberRecord) : Prop := a.2.id ≤ b.2.id

instance : DecidableRel byNumericId := fun a b => Nat.decLe a.2.id b.2.id

/-- The accumulated description text of listids over a given record
order. -/
def renderDescription (guildMembers : List Member) (entries : List (Nat × MemberRecord)) :
    String :=
  entries.foldl (fun acc p => acc ++ renderLine guildMembers p) ""

/-- listids: empty-store notice, otherwise sort the records by numeric
id (a stable sort, as the Python sorted builtin), render the lines, and refuse
with the too-long notice when the text exceeds 4096 characters. -/
def listids (guildMembers : List Member) (store : Store) : ListResult :=
  if store = [] then ListResult.noIds
  else
    let sortedEntries := List.insertionSort byNumericId store
    let descriptionText := renderDescription guildMembers sortedEntries
    if 4096 < descriptionText.length then ListResult.tooLong
    else ListResult.listing descriptionText

instance : IsTotal (Nat × MemberRecord) byNumericId :=
  ⟨fun a b => Nat.le_total a.2.id b.2.id⟩

instance : IsTrans (Nat × MemberRecord) byNumericId :=
  ⟨fun _ _ _ hab hbc => Nat.le_trans hab hbc⟩

/-- A store holding all 1000 numeric ids (member i holds id i). -/
def fullStore1000 : Store :=
  (List.range 1000).map (fun i => (i, ⟨i, formatId3 i, "u"⟩))

/-- A store holding every numeric id except 7 (member i holds id i). -/
def store999 : Store :=
  ((List.range 1000).filter (fun i => i != 7)).map (fun i => (i, ⟨i, formatId3 i, "u"⟩))

/-! ## Basic lemmas about digits, parsing and formatting -/

theorem digitChar_toNat (d : Nat) (h : d < 10) : (digitChar d).toNat = 48 + d := by
  interval_cases d <;> decide

theorem parseNat_mk (l : List Char) : parseNat (String.mk l) = l.foldl parseStep 0 := rfl

theorem parseNat_formatId3 (n : Nat) (h : n < 1000) : parseNat (formatId3 n) = n := by
  have h1 : n / 100 % 10 < 10 := Nat.mod_lt _ (by norm_num)
  have h2 : n / 10 % 10 < 10 := Nat.mod_lt _ (by norm_num)
  have h3 : n % 10 < 10 := Nat.mod_lt _ (by norm_num)
  simp only [formatId3, parseNat_mk, List.foldl, parseStep,
    digitChar_toNat _ h1, digitChar_toNat _ h2, digitChar_toNat _ h3]
  omega

theorem formatId3_length (n : Nat) : (formatId3 n).length = 3 := rfl

theorem natToDigits_foldl (n : Nat) : (natToDigits n).foldl parseStep 0 = n := by
  induction n using Nat.strong_induction_on with
  | _ n ih =>
    rw [natToDigits]
    by_cases h : n < 10
    · simp only [if_pos h, List.foldl, parseStep, digitChar_toNat _ h]
      omega
    · have hd : n / 10 < n := Nat.div_lt_self (by omega) (by omega)
      have hm : n % 10 < 10 := Nat.mod_lt _ (by norm_num)
      simp only [if_neg h, List.foldl_append, ih _ hd, List.foldl, parseStep,
        digitChar_toNat _ hm]
      omega

theorem parseNat_natToString (n : Nat) : parseNat (natToString n) = n := by
  rw [natToString, parseNat_mk, natToDigits_foldl]

/-! ## Lemmas about the store and the available-id pool -/

theorem choose_mem (k : Nat) (l : List Nat) (h : l ≠ []) : choose k l ∈ l := by
  have hl : 0 < l.length := List.length_pos.2 h
  have hk : k % l.length < l.length := Nat.mod_lt _ hl
  rw [choose, List.getD_eq_getElem l 0 hk]
  exact List.getElem_mem hk

theorem mem_availableIds (store : Store) (i : Nat) :
    i ∈ availableIds store ↔ i < 1000 ∧ i ∉ assignedIds store := by
  simp [availableIds, allPossibleIds, List.mem_filter, List.mem_range]

theorem storeLookup_none_iff (key : Nat) (s : Store) :
    storeLookup key s = none ↔ ∀ p ∈ s, p.1 ≠ key := by
  induction s with
  | nil => simp [storeLookup]
  | cons p ps ih =>
    by_cases h : p.1 = key
    · simp [storeLookup, h]
    · simp [storeLookup, h, ih]

theorem storeLookup_append (key : Nat) (s t : Store) :
    storeLookup key (s ++ t) =
      match storeLookup key s with
      | some v => some v
      | none => storeLookup key t := by
  induction s with
  | nil => simp [storeLookup]
  | cons p ps ih =>
    by_cases h : p.1 = key
    · simp [storeLookup, h]
    · simp [storeLookup, h, ih]

theorem storeInsert_of_lookup_none (key : Nat) (v : MemberRecord) (s : Store)
    (h : storeLookup key s = none) : storeInsert key v s = s ++ [(key, v)] := by
  induction s with
  | nil => rfl
  | cons p ps ih =>
    rw [storeLookup] at h
    by_cases hp : p.1 = key
    · simp [hp] at h
    · rw [storeInsert, if_neg hp, List.cons_append, ih (by simpa [hp] using h)]

theorem assignedIds_append (s t : Store) :
    assignedIds (s ++ t) = assignedIds s ++ assignedIds t := by
  simp [assignedIds]

theorem covers_of_nodup_full (l : List Nat) (N : Nat) (hn : l.Nodup)
    (hb : ∀ i ∈ l, i < N) (hlen : l.length = N) : ∀ j < N, j ∈ l := by
  have hsub : l.toFinset ⊆ Finset.range N := fun x hx =>
    Finset.mem_range.2 (hb x (List.mem_toFinset.1 hx))
  have hcard : (Finset.range N).card ≤ l.toFinset.card := by
    rw [Finset.card_range, List.toFinset_card_of_nodup hn, hlen]
  have heq := Finset.eq_of_subset_of_card_le hsub hcard
  intro j hj
  exact List.mem_toFinset.1 (heq ▸ Finset.mem_range.2 hj)

theorem covers_of_nodup_except (l : List Nat) (hn : l.Nodup)
    (hb : ∀ i ∈ l, i < 1000) (h7 : 7 ∉ l) (hlen : l.length = 999) :
    ∀ j < 1000, j ≠ 7 → j ∈ l := by
  have hsub : l.toFinset ⊆ (Finset.range 1000).erase 7 := fun x hx => by
    have hxl := List.mem_toFinset.1 hx
    exact Finset.mem_erase.2 ⟨fun he => h7 (he ▸ hxl), Finset.mem_range.2 (hb x hxl)⟩
  have hcard : ((Finset.range 1000).erase 7).card ≤ l.toFinset.card := by
    rw [Finset.card_erase_of_mem (Finset.mem_range.2 (by norm_num)),
      Finset.card_range, List.toFinset_card_of_nodup hn, hlen]
  have heq := Finset.eq_of_subset_of_card_le hsub hcard
  intro j hj hne
  exact List.mem_toFinset.1
    (heq ▸ Finset.mem_erase.2 ⟨hne, Finset.mem_range.2 hj⟩)

theorem availableIds_eq_nil_of_full (store : Store)
    (hb : ∀ i ∈ assignedIds store, i < 1000)
    (hn : (assignedIds store).Nodup) (hlen : store.length = 1000) :
    availableIds store = [] := by
  have hlen' : (assignedIds store).length = 1000 := by
    simpa [assignedIds] using hlen
  have hcov := covers_of_nodup_full (assignedIds store) 1000 hn hb hlen'
  rw [availableIds, List.filter_eq_nil_iff]
  intro i hi
  have hi' : i < 1000 := List.mem_range.1 (by simpa [allPossibleIds] using hi)
  simp [hcov i hi']

theorem availableIds_ne_nil_of_not_full (store : Store)
    (hlen : store.length < 1000) : availableIds store ≠ [] := by
  intro hnil
  have hcov : ∀ i ∈ allPossibleIds, i ∈ assignedIds store := by
    intro i hi
    have := (List.filter_eq_nil_iff.1 (by rw [availableIds] at hnil; exact hnil)) i hi
    simpa using this
  have hsub : Finset.range 1000 ⊆ (assignedIds store).toFinset := fun x hx =>
    List.mem_toFinset.2 (hcov x (by simpa [allPossibleIds] using Finset.mem_range.1 hx))
  have h1 : (1000 : Nat) ≤ (assignedIds store).toFinset.card := by
    simpa using Finset.card_le_card hsub
  have h2 : (assignedIds store).toFinset.card ≤ (assignedIds store).length :=
    List.toFinset_card_le _
  have h3 : (assignedIds store).length = store.length := by simp [assignedIds]
  omega

theorem filter_eq_singleton_of (l : List Nat) (p : Nat → Bool) (a : Nat)
    (hnd : l.Nodup) (ha : a ∈ l) (hpa : p a = true)
    (honly : ∀ x ∈ l, p x = true → x = a) : l.filter p = [a] := by
  induction l with
  | nil => cases ha
  | cons b bs ih =>
    rcases List.nodup_cons.1 hnd with ⟨hb, hnd2⟩
    by_cases hpb : p b = true
    · have hba : b = a := honly b (List.mem_cons_self b bs) hpb
      subst hba
      rw [List.filter_cons_of_pos hpb]
      have : List.filter p bs = [] := by
        rw [List.filter_eq_nil_iff]
        intro x hx hpx
        exact hb ((honly x (List.mem_cons_of_mem _ hx) hpx) ▸ hx)
      rw [this]
    · have hba : b ≠ a := fun he => hpb (he ▸ hpa)
      have ha2 : a ∈ bs := by
        rcases List.mem_cons.1 ha with he | hm
        · exact absurd he.symm hba
        · exact hm
      rw [List.filter_cons_of_neg (by simpa using hpb)]
      exact ih hnd2 ha2 (fun x hx => honly x (List.mem_cons_of_mem _ hx))

/-! ## The three paths of assign_id_and_role -/

theorem assign_rejoin (k : Nat) (m : Member) (roles : List String) (store : Store)
    (d : MemberRecord) (h : storeLookup m.id store = some d) :
    (assign_id_and_role k m roles store).result = some d.id_str ∧
    (assign_id_and_role k m roles store).store = store ∧
    (assign_id_and_role k m roles store).saved = false := by
  simp only [assign_id_and_role, h]
  split <;> simp

theorem assign_scarcity (k : Nat) (m : Member) (roles : List String) (store : Store)
    (h1 : storeLookup m.id store = none) (h2 : availableIds store = []) :
    assign_id_and_role k m roles store = ⟨none, store, roles, [], false⟩ := by
  simp [assign_id_and_role, get_new_id, h1, h2]

theorem assign_new (k : Nat) (m : Member) (roles : List String) (store : Store)
    (h1 : storeLookup m.id store = none) (h2 : availableIds store ≠ []) :
    ∃ n, n ∈ availableIds store ∧ n < 1000 ∧ n ∉ assignedIds store ∧
      get_new_id k store = some (formatId3 n) ∧
      (assign_id_and_role k m roles store).result = some (formatId3 n) ∧
      (assign_id_and_role k m roles store).store =
        store ++ [(m.id, ⟨n, formatId3 n, m.name⟩)] ∧
      (assign_id_and_role k m roles store).saved = true := by
  have hmem := choose_mem k (availableIds store) h2
  have hlt : choose k (availableIds store) < 1000 :=
    ((mem_availableIds _ _).1 hmem).1
  have hnot : choose k (availableIds store) ∉ assignedIds store :=
    ((mem_availableIds _ _).1 hmem).2
  have hg : get_new_id k store = some (formatId3 (choose k (availableIds store))) := by
    rw [get_new_id, if_neg h2]
  refine ⟨choose k (availableIds store), hmem, hlt, hnot, hg, ?_, ?_, ?_⟩ <;>
    · simp only [assign_id_and_role, h1, hg]
      split <;>
        simp [storeInsert_of_lookup_none _ _ _ h1, parseNat_formatId3 _ hlt]

/-! ## Store well-formedness and its preservation -/

/-- The store invariant: numeric ids pairwise distinct and in range. -/
def GoodStore (store : Store) : Prop :=
  (assignedIds store).Nodup ∧ ∀ i ∈ assignedIds store, i < 1000

theorem assignedIds_single (mid n : Nat) (s u : String) :
    assignedIds [(mid, ⟨n, s, u⟩)] = [n] := rfl

theorem goodStore_append (store : Store) (hg : GoodStore store) (mid n : Nat)
    (s u : String) (hlt : n < 1000) (hnot : n ∉ assignedIds store) :
    GoodStore (store ++ [(mid, ⟨n, s, u⟩)]) := by
  constructor
  · rw [assignedIds_append, assignedIds_single]
    exact List.Nodup.append hg.1 (List.nodup_singleton n)
      (by simpa [List.disjoint_right] using hnot)
  · intro i hi
    rw [assignedIds_append, assignedIds_single] at hi
    rcases List.mem_append.1 hi with hi | hi
    · exact hg.2 i hi
    · simpa using (List.mem_singleton.1 hi) ▸ hlt

theorem storeLookup_append_of_ne (key k2 : Nat) (v : MemberRecord) (s : Store)
    (h : k2 ≠ key) : storeLookup key (s ++ [(k2, v)]) = storeLookup key s := by
  rw [storeLookup_append]
  cases hcase : storeLookup key s <;> simp [storeLookup, h]

theorem assignedIds_length (store : Store) :
    (assignedIds store).length = store.length := by simp [assignedIds]

/-! ## The two batch loops -/

theorem refreshGo_spec (ks : Nat → Nat) (i : Nat) (members : List Member)
    (roles : List String) (store : Store) (invoked : List Nat)
    (hg : GoodStore store)
    (hfresh : ∀ m ∈ members, storeLookup m.id store = none)
    (hnd : (members.map Member.id).Nodup)
    (hlen : store.length + (members.filter (fun m => !m.bot)).length ≤ 1000) :
    (refreshGo ks i members roles store invoked).store.length =
      store.length + (members.filter (fun m => !m.bot)).length ∧
    (refreshGo ks i members roles store invoked).invoked =
      invoked ++ (members.filter (fun m => !m.bot)).map Member.id ∧
    GoodStore (refreshGo ks i members roles store invoked).store := by
  induction members generalizing i roles store invoked with
  | nil => simpa [refreshGo] using hg
  | cons m ms ih =>
    rw [List.map_cons] at hnd
    rcases List.nodup_cons.1 hnd with ⟨hmid, hnd2⟩
    by_cases hbot : m.bot
    · have hfilter : (m :: ms).filter (fun m => !m.bot) =
          ms.filter (fun m => !m.bot) := by
        rw [List.filter_cons_of_neg (by simp [hbot])]
      rw [hfilter] at hlen ⊢
      rw [refreshGo, if_neg (by simp [hbot])]
      exact ih (i + 1) roles store invoked hg
        (fun m' hm' => hfresh m' (List.mem_cons_of_mem _ hm')) hnd2 hlen
    · have hfilter : (m :: ms).filter (fun m => !m.bot) =
          m :: ms.filter (fun m => !m.bot) := by
        rw [List.filter_cons_of_pos (by simp [hbot])]
      rw [hfilter] at hlen ⊢
      have hnone : storeLookup m.id store = none := hfresh m (List.mem_cons_self m ms)
      have hne : availableIds store ≠ [] :=
        availableIds_ne_nil_of_not_full store (by simp at hlen; omega)
      obtain ⟨n, hmem, hlt, hnotmem, hget, hres, hstore, hsaved⟩ :=
        assign_new (ks i) m roles store hnone hne
      rw [refreshGo, if_pos (by simp [hbot])]
      dsimp only
      rw [hstore]
      have hg2 : GoodStore (store ++ [(m.id, ⟨n, formatId3 n, m.name⟩)]) :=
        goodStore_append store hg m.id n (formatId3 n) m.name hlt hnotmem

      have hfresh2 : ∀ m' ∈ ms,
          storeLookup m'.id (store ++ [(m.id, ⟨n, formatId3 n, m.name⟩)]) = none := by
        intro m' hm'
        have hne2 : m.id ≠ m'.id := by
          intro he
          exact hmid (he ▸ List.mem_map_of_mem Member.id hm')
        rw [storeLookup_append_of_ne _ _ _ _ hne2]
        exact hfresh m' (List.mem_cons_of_mem _ hm')
      have hlen2 : (store ++ [(m.id, (⟨n, formatId3 n, m.name⟩ : MemberRecord))]).length +
          (ms.filter (fun m => !m.bot)).length ≤ 1000 := by
        simp at hlen ⊢; omega
      obtain ⟨ha, hb, hc⟩ := ih (i + 1) (assign_id_and_role (ks i) m roles store).roles
        (store ++ [(m.id, ⟨n, formatId3 n, m.name⟩)]) (invoked ++ [m.id])
        hg2 hfresh2 hnd2 hlen2
      refine ⟨?_, ?_, hc⟩
      · rw [ha]; simp; omega
      · rw [hb]; simp

theorem backfillGo_spec (ks : Nat → Nat) (i : Nat) (members : List Member)
    (roles : List String) (store : Store) (count : Nat) (invoked : List Nat)
    (hg : GoodStore store)
    (hnd : (members.map Member.id).Nodup)
    (hlen : store.length + members.length ≤ 1000) :
    (assignExistingGo ks i members roles store count invoked).count = count +
      (members.filter (fun m => !m.bot && (storeLookup m.id store).isNone)).length ∧
    (assignExistingGo ks i members roles store count invoked).invoked = invoked ++
      (members.filter (fun m => !m.bot && (storeLookup m.id store).isNone)).map Member.id ∧
    (assignExistingGo ks i members roles store count invoked).store.length =
      store.length +
      (members.filter (fun m => !m.bot && (storeLookup m.id store).isNone)).length ∧
    GoodStore (assignExistingGo ks i members roles store count invoked).store := by
  induction members generalizing i roles store count invoked with
  | nil => simpa [assignExistingGo] using hg
  | cons m ms ih =>
    rw [List.map_cons] at hnd
    rcases List.nodup_cons.1 hnd with ⟨hmid, hnd2⟩
    by_cases hcond : (!m.bot && (storeLookup m.id store).isNone) = true
    · obtain ⟨hbot, hnone⟩ : m.bot = false ∧ storeLookup m.id store = none := by
        simpa [Option.isNone_iff_eq_none] using hcond
      have hne : availableIds store ≠ [] :=
        availableIds_ne_nil_of_not_full store (by simp at hlen; omega)
      obtain ⟨n, hmem, hlt, hnotmem, hget, hres, hstore, hsaved⟩ :=
        assign_new (ks i) m roles store hnone hne
      rw [assignExistingGo, if_pos hcond]
      dsimp only
      rw [hstore]
      rw [List.filter_cons, if_pos hcond]
      have hg2 : GoodStore (store ++ [(m.id, ⟨n, formatId3 n, m.name⟩)]) :=
        goodStore_append store hg m.id n (formatId3 n) m.name hlt hnotmem
      have hlen2 :
          (store ++ [(m.id, (⟨n, formatId3 n, m.name⟩ : MemberRecord))]).length +
          ms.length ≤ 1000 := by
        simp at hlen ⊢; omega
      obtain ⟨ha, hb, hc, hd⟩ := ih (i + 1) (assign_id_and_role (ks i) m roles store).roles
        (store ++ [(m.id, ⟨n, formatId3 n, m.name⟩)]) (count + 1) (invoked ++ [m.id])
        hg2 hnd2 hlen2
      have hpred : ms.filter (fun m' => !m'.bot &&
            (storeLookup m'.id (store ++ [(m.id, ⟨n, formatId3 n, m.name⟩)])).isNone) =
          ms.filter (fun m' => !m'.bot && (storeLookup m'.id store).isNone) := by
        apply List.filter_congr
        intro m' hm'
        have hne2 : m.id ≠ m'.id := fun he =>
          hmid (he ▸ List.mem_map_of_mem Member.id hm')
        rw [storeLookup_append_of_ne _ _ _ _ hne2]
      rw [hpred] at ha hb hc
      refine ⟨?_, ?_, ?_, hd⟩
      · rw [ha]; simp; omega
      · rw [hb]; simp
      · rw [hc]; simp; omega
    · rw [assignExistingGo, if_neg hcond]
      rw [List.filter_cons, if_neg hcond]
      exact ih (i + 1) roles store count invoked hg hnd2 (by simp at hlen ⊢; omega)

/-! ## Further helper lemmas for concrete stores -/

theorem storeLookup_map_none (key : Nat) (l : List Nat) (f : Nat → MemberRecord)
    (h : key ∉ l) : storeLookup key (l.map (fun i => (i, f i))) = none := by
  rw [storeLookup_none_iff]
  intro p hp
  obtain ⟨i, hi, rfl⟩ := List.mem_map.1 hp
  exact fun he => h (he ▸ hi)

theorem assignedIds_map_u (l : List Nat) :
    assignedIds (l.map (fun i => (i, (⟨i, formatId3 i, "u"⟩ : MemberRecord)))) = l := by
  induction l with
  | nil => rfl
  | cons a as ih => simp [assignedIds] at ih ⊢; exact ih

theorem assignedIds_fullStore1000 : assignedIds fullStore1000 = List.range 1000 :=
  assignedIds_map_u (List.range 1000)

theorem assignedIds_store999 :
    assignedIds store999 = (List.range 1000).filter (fun i => i != 7) :=
  assignedIds_map_u ((List.range 1000).filter (fun i => i != 7))

theorem availableIds_nil : availableIds ([] : Store) = allPossibleIds := by
  simp [availableIds, assignedIds]

/-! ## The claims -/

/-- Claim C5: saving a store and loading it back yields a mapping equal
to the one saved, in keys (serialised as text and parsed back) and in
all three record fields. -/
theorem save_load_roundtrip (store : Store) : load_data (save_data store) = store := by
  induction store with
  | nil => rfl
  | cons p ps ih => simp [save_data, load_data, parseNat_natToString] at ih ⊢; exact ih

/-- Claim C1: if the numeric ids of the store are pairwise distinct and the
member has no record, one complete allocation (get_new_id followed by
the record write of assign_id_and_role) leaves the numeric ids pairwise
distinct: the chosen id is drawn from the complement of the used set. -/
theorem uniqueness_preserved_by_allocate (k : Nat) (m : Member) (roles : List String)
    (store : Store) (hnd : (assignedIds store).Nodup)
    (hnew : storeLookup m.id store = none) :
    (assignedIds (assign_id_and_role k m roles store).store).Nodup := by
  by_cases h2 : availableIds store = []
  · rw [assign_scarcity k m roles store hnew h2]
    exact hnd
  · obtain ⟨n, hmem, hlt, hnotmem, hget, hres, hstore, hsaved⟩ :=
      assign_new k m roles store hnew h2
    rw [hstore, assignedIds_append, assignedIds_single]
    exact List.Nodup.append hnd (List.nodup_singleton n)
      (by simpa [List.disjoint_right] using hnotmem)

/-- Witness for C1 at a concrete two-record store and a fresh member. -/
theorem uniqueness_preserved_by_allocate_witness :
    (assignedIds
      (assign_id_and_role 0 ⟨42, "carol", false⟩ []
        [(1, ⟨3, "003", "a"⟩), (2, ⟨5, "005", "b"⟩)]).store).Nodup :=
  uniqueness_preserved_by_allocate 0 ⟨42, "carol", false⟩ []
    [(1, ⟨3, "003", "a"⟩), (2, ⟨5, "005", "b"⟩)] (by decide) (by decide)

/-- Claim C2: for a member with a stored record, assign_id_and_role
returns the stored id_str, does not change the store, does not save,
and a second call (with any randomness and any role environment, in
particular one where the role is missing and gets recreated) returns
the same id_str again. -/
theorem rejoin_idempotent (k k2 : Nat) (m : Member) (roles roles2 : List String)
    (store : Store) (d : MemberRecord) (h : storeLookup m.id store = some d) :
    (assign_id_and_role k m roles store).result = some d.id_str ∧
    (assign_id_and_role k m roles store).store = store ∧
    (assign_id_and_role k m roles store).saved = false ∧
    (assign_id_and_role k2 m roles2 (assign_id_and_role k m roles store).store).result =
      some d.id_str := by
  obtain ⟨h1, h2, h3⟩ := assign_rejoin k m roles store d h
  refine ⟨h1, h2, h3, ?_⟩
  rw [h2]
  exact (assign_rejoin k2 m roles2 store d h).1

/-- Witness for C2: a rejoining member, first call with the role
present, second call with an empty role list (missing-role branch). -/
theorem rejoin_idempotent_witness :
    (assign_id_and_role 3 ⟨42, "alice", false⟩ ["Member #007"]
      [(42, ⟨7, "007", "alice"⟩)]).result = some "007" ∧
    (assign_id_and_role 3 ⟨42, "alice", false⟩ ["Member #007"]
      [(42, ⟨7, "007", "alice"⟩)]).store = [(42, ⟨7, "007", "alice"⟩)] ∧
    (assign_id_and_role 3 ⟨42, "alice", false⟩ ["Member #007"]
      [(42, ⟨7, "007", "alice"⟩)]).saved = false ∧
    (assign_id_and_role 9 ⟨42, "alice", false⟩ []
      (assign_id_and_role 3 ⟨42, "alice", false⟩ ["Member #007"]
        [(42, ⟨7, "007", "alice"⟩)]).store).result = some "007" :=
  rejoin_idempotent 3 9 ⟨42, "alice", false⟩ ["Member #007"] []
    [(42, ⟨7, "007", "alice"⟩)] ⟨7, "007", "alice"⟩ (by decide)

/-- Claim C3: on a store of 1000 records with pairwise-distinct in-range
numeric ids, allocation for an absent member returns None and changes
nothing: the store, the roles, the effect list (empty: the collaborator
is never invoked) and the saved flag all show no activity. -/
theorem scarcity_leaves_store_unchanged (k : Nat) (m : Member) (roles : List String)
    (store : Store) (hnd : (assignedIds store).Nodup)
    (hb : ∀ i ∈ assignedIds store, i < 1000)
    (hlen : store.length = 1000)
    (hnew : storeLookup m.id store = none) :
    assign_id_and_role k m roles store = ⟨none, store, roles, [], false⟩ :=
  assign_scarcity k m roles store hnew (availableIds_eq_nil_of_full store hb hnd hlen)

/-- Witness for C3 at the full 1000-record store. -/
theorem scarcity_leaves_store_unchanged_witness :
    assign_id_and_role 0 ⟨4242, "zoe", false⟩ [] fullStore1000 =
      ⟨none, fullStore1000, [], [], false⟩ :=
  scarcity_leaves_store_unchanged 0 ⟨4242, "zoe", false⟩ [] fullStore1000
    (by rw [assignedIds_fullStore1000]; exact List.nodup_range 1000)
    (by rw [assignedIds_fullStore1000]; intro i hi; exact List.mem_range.1 hi)
    (by simp [fullStore1000])
    (storeLookup_map_none 4242 (List.range 1000) _
      (by simp [List.mem_range]))

/-- Claim C4: a successful allocation returns exactly the string
get_new_id produced; the underlying numeric id n is at most 999, the
string is its 3-character zero-padded decimal form (parsing it back
gives n), and the record written for the member stores id = n and
id_str = that string, so id = int(id_str) holds for the new record. -/
theorem allocate_range_and_format (k : Nat) (m : Member) (roles : List String)
    (store : Store) (s : String) (hnew : storeLookup m.id store = none)
    (hres : (assign_id_and_role k m roles store).result = some s) :
    ∃ n, n ≤ 999 ∧ get_new_id k store = some s ∧ s = formatId3 n ∧
      s.length = 3 ∧ parseNat s = n ∧
      storeLookup m.id (assign_id_and_role k m roles store).store =
        some ⟨n, s, m.name⟩ := by
  by_cases h2 : availableIds store = []
  · rw [assign_scarcity k m roles store hnew h2] at hres
    simp at hres
  · obtain ⟨n, hmem, hlt, hnotmem, hget, hres2, hstore, hsaved⟩ :=
      assign_new k m roles store hnew h2
    have hs : s = formatId3 n := by
      rw [hres] at hres2
      exact Option.some.inj hres2
    subst hs
    refine ⟨n, by omega, hget, rfl, formatId3_length n, parseNat_formatId3 n hlt, ?_⟩
    rw [hstore, storeLookup_append, hnew]
    simp [storeLookup]

set_option maxRecDepth 20000 in
/-- Witness for C4: allocation on the empty store (k = 0 picks id 0). -/
theorem allocate_range_and_format_witness :
    ∃ n, n ≤ 999 ∧ get_new_id 0 ([] : Store) = some "000" ∧
      "000" = formatId3 n ∧ ("000" : String).length = 3 ∧ parseNat "000" = n ∧
      storeLookup 1 (assign_id_and_role 0 ⟨1, "amy", false⟩ [] ([] : Store)).store =
        some ⟨n, "000", "amy"⟩ :=
  allocate_range_and_format 0 ⟨1, "amy", false⟩ [] [] "000" (by decide) (by decide)

theorem assignExistingGo_nil (ks : Nat → Nat) (i : Nat) (roles : List String)
    (store : Store) (count : Nat) (invoked : List Nat) :
    assignExistingGo ks i [] roles store count invoked =
      ⟨count, store, roles, invoked⟩ := rfl

theorem assignExistingGo_cons_alloc (ks : Nat → Nat) (i : Nat) (m : Member)
    (ms : List Member) (roles : List String) (store : Store) (count : Nat)
    (invoked : List Nat)
    (hcond : (!m.bot && (storeLookup m.id store).isNone) = true) :
    assignExistingGo ks i (m :: ms) roles store count invoked =
      assignExistingGo ks (i + 1) ms (assign_id_and_role (ks i) m roles store).roles
        (assign_id_and_role (ks i) m roles store).store (count + 1)
        (invoked ++ [m.id]) := by
  rw [assignExistingGo, if_pos hcond]

set_option maxRecDepth 100000 in
/-- Counterexample to Claim C6 as frozen: on a store already holding all
1000 ids, assign_existing for one new non-bot member reports count 1,
yet the store is unchanged, so the number of members newly assigned an
id is 0, not 1: the loop increments its counter even when the allocator
fails with scarcity. -/
theorem backfill_count_counterexample :
    (assign_existing (fun _ => 0) [⟨4242, "zoe", false⟩] [] fullStore1000).count = 1 ∧
    (assign_existing (fun _ => 0) [⟨4242, "zoe", false⟩] [] fullStore1000).store =
      fullStore1000 := by
  have hnone : storeLookup 4242 fullStore1000 = none :=
    storeLookup_map_none 4242 (List.range 1000) _ (by simp [List.mem_range])
  have hnil : availableIds fullStore1000 = [] :=
    availableIds_eq_nil_of_full fullStore1000
      (by rw [assignedIds_fullStore1000]; intro i hi; exact List.mem_range.1 hi)
      (by rw [assignedIds_fullStore1000]; exact List.nodup_range 1000)
      (by simp [fullStore1000])
  have hassign := assign_scarcity 0 ⟨4242, "zoe", false⟩ [] fullStore1000 hnone hnil
  have hcond : (!(⟨4242, "zoe", false⟩ : Member).bot &&
      (storeLookup (⟨4242, "zoe", false⟩ : Member).id fullStore1000).isNone) = true := by
    show (!false && (storeLookup 4242 fullStore1000).isNone) = true
    rw [hnone]
    rfl
  rw [assign_existing,
    assignExistingGo_cons_alloc (fun _ => 0) 0 ⟨4242, "zoe", false⟩ [] []
      fullStore1000 0 [] hcond]
  dsimp only
  rw [hassign, assignExistingGo_nil]
  exact ⟨rfl, rfl⟩

/-- Claim C6, amended: assign_existing invokes the allocator exactly for
the non-bot members lacking a record, and the count it reports equals
the number of those members; provided the pool cannot run out during
the pass (records plus members at most 1000), every such invocation
writes a record, so the count also equals the number of members newly
assigned an id (the store grows by exactly the count). -/
theorem backfill_count_amended (ks : Nat → Nat) (members : List Member)
    (roles : List String) (store : Store)
    (hg : GoodStore store)
    (hnd : (members.map Member.id).Nodup)
    (hlen : store.length + members.length ≤ 1000) :
    (assign_existing ks members roles store).invoked =
      (members.filter (fun m => !m.bot && (storeLookup m.id store).isNone)).map
        Member.id ∧
    (assign_existing ks members roles store).count =
      (members.filter (fun m => !m.bot && (storeLookup m.id store).isNone)).length ∧
    (assign_existing ks members roles store).store.length =
      store.length + (assign_existing ks members roles store).count := by
  obtain ⟨ha, hb, hc, _⟩ := backfillGo_spec ks 0 members roles store 0 [] hg hnd hlen
  unfold assign_existing
  refine ⟨by rw [hb]; simp, by rw [ha]; omega, by rw [hc, ha]; omega⟩

/-- Witness for the amended C6: one fresh member, one bot, one member
with an existing record; only the fresh member is counted. -/
theorem backfill_count_amended_witness :
    (assign_existing (fun _ => 0)
      [⟨1, "ann", false⟩, ⟨2, "bee", true⟩, ⟨3, "cal", false⟩] []
      [(3, ⟨5, "005", "cal"⟩)]).invoked =
      (([⟨1, "ann", false⟩, ⟨2, "bee", true⟩, ⟨3, "cal", false⟩] : List Member).filter
        (fun m => !m.bot &&
          (storeLookup m.id [(3, ⟨5, "005", "cal"⟩)]).isNone)).map Member.id ∧
    (assign_existing (fun _ => 0)
      [⟨1, "ann", false⟩, ⟨2, "bee", true⟩, ⟨3, "cal", false⟩] []
      [(3, ⟨5, "005", "cal"⟩)]).count =
      (([⟨1, "ann", false⟩, ⟨2, "bee", true⟩, ⟨3, "cal", false⟩] : List Member).filter
        (fun m => !m.bot &&
          (storeLookup m.id [(3, ⟨5, "005", "cal"⟩)]).isNone)).length ∧
    (assign_existing (fun _ => 0)
      [⟨1, "ann", false⟩, ⟨2, "bee", true⟩, ⟨3, "cal", false⟩] []
      [(3, ⟨5, "005", "cal"⟩)]).store.length =
      ([(3, (⟨5, "005", "cal"⟩ : MemberRecord))] : Store).length +
      (assign_existing (fun _ => 0)
        [⟨1, "ann", false⟩, ⟨2, "bee", true⟩, ⟨3, "cal", false⟩] []
        [(3, ⟨5, "005", "cal"⟩)]).count :=
  backfill_count_amended (fun _ => 0)
    [⟨1, "ann", false⟩, ⟨2, "bee", true⟩, ⟨3, "cal", false⟩] []
    [(3, ⟨5, "005", "cal"⟩)]
    ⟨by decide, by decide⟩ (by decide) (by decide)

/-- Claim C7: on a non-empty store, listids renders the records in
ascending numeric-id order (the sorted list is a permutation of the
store, sorted by byNumericId; present members render as a live mention,
departed ones as the placeholder carrying their member id, per
renderLine), and when the rendered text exceeds 4096 characters it
returns the too-long indicator instead of any listing. -/
theorem listids_sorted_and_bounded (guildMembers : List Member) (store : Store)
    (hne : store ≠ []) :
    (List.insertionSort byNumericId store).Perm store ∧
    List.Sorted byNumericId (List.insertionSort byNumericId store) ∧
    listids guildMembers store =
      (if 4096 < (renderDescription guildMembers
          (List.insertionSort byNumericId store)).length
        then ListResult.tooLong
        else ListResult.listing (renderDescription guildMembers
          (List.insertionSort byNumericId store))) := by
  refine ⟨List.perm_insertionSort byNumericId store,
    List.sorted_insertionSort byNumericId store, ?_⟩
  unfold listids
  rw [if_neg hne]

/-- Witness for C7: a two-record store listed for a one-member guild. -/
theorem listids_sorted_and_bounded_witness :
    (List.insertionSort byNumericId
      [(9, ⟨1, "001", "bob"⟩), (42, ⟨7, "007", "alice"⟩)]).Perm
      [(9, ⟨1, "001", "bob"⟩), (42, ⟨7, "007", "alice"⟩)] ∧
    List.Sorted byNumericId (List.insertionSort byNumericId
      [(9, ⟨1, "001", "bob"⟩), (42, ⟨7, "007", "alice"⟩)]) ∧
    listids [⟨42, "alice", false⟩]
      [(9, ⟨1, "001", "bob"⟩), (42, ⟨7, "007", "alice"⟩)] =
      (if 4096 < (renderDescription [⟨42, "alice", false⟩]
          (List.insertionSort byNumericId
            [(9, ⟨1, "001", "bob"⟩), (42, ⟨7, "007", "alice"⟩)])).length
        then ListResult.tooLong
        else ListResult.listing (renderDescription [⟨42, "alice", false⟩]
          (List.insertionSort byNumericId
            [(9, ⟨1, "001", "bob"⟩), (42, ⟨7, "007", "alice"⟩)]))) :=
  listids_sorted_and_bounded [⟨42, "alice", false⟩]
    [(9, ⟨1, "001", "bob"⟩), (42, ⟨7, "007", "alice"⟩)] (by decide)

/-- Claim C8: when the store uses every numeric id except 7 (999
pairwise-distinct in-range ids, 7 unused), allocation for a new member
deterministically returns "007" regardless of the random draw, and the
new record stores numeric id 7. -/
theorem singleton_pool_deterministic (k : Nat) (B : Member) (roles : List String)
    (store : Store)
    (hnd : (assignedIds store).Nodup)
    (hb : ∀ i ∈ assignedIds store, i < 1000)
    (hlen : store.length = 999)
    (h7 : 7 ∉ assignedIds store)
    (hnew : storeLookup B.id store = none) :
    (assign_id_and_role k B roles store).result = some "007" ∧
    storeLookup B.id (assign_id_and_role k B roles store).store =
      some ⟨7, "007", B.name⟩ := by
  have hlen2 : (assignedIds store).length = 999 := by
    rw [assignedIds_length]; exact hlen
  have hcov := covers_of_nodup_except (assignedIds store) hnd hb h7 hlen2
  have havail : availableIds store = [7] := by
    rw [availableIds]
    apply filter_eq_singleton_of
    · simpa [allPossibleIds] using List.nodup_range 1000
    · simp [allPossibleIds, List.mem_range]
    · simpa using h7
    · intro x hx hpx
      by_contra hne7
      have hx1000 : x < 1000 := List.mem_range.1 (by simpa [allPossibleIds] using hx)
      have hxmem : x ∈ assignedIds store := hcov x hx1000 hne7
      simp [hxmem] at hpx
  have hne : availableIds store ≠ [] := by rw [havail]; simp
  obtain ⟨n, hmem, hlt, hnotmem, hget, hres, hstore, hsaved⟩ :=
    assign_new k B roles store hnew hne
  have hn7 : n = 7 := by rw [havail] at hmem; simpa using hmem
  subst hn7
  have h007 : formatId3 7 = "007" := rfl
  constructor
  · rw [hres, h007]
  · rw [hstore, storeLookup_append, hnew]
    simp [storeLookup, h007]

set_option maxRecDepth 20000 in
/-- Witness for C8 at the concrete 999-record store missing only id 7. -/
theorem singleton_pool_deterministic_witness :
    (assign_id_and_role 0 ⟨4242, "bob", false⟩ [] store999).result = some "007" ∧
    storeLookup 4242 (assign_id_and_role 0 ⟨4242, "bob", false⟩ [] store999).store =
      some ⟨7, "007", "bob"⟩ :=
  singleton_pool_deterministic 0 ⟨4242, "bob", false⟩ [] store999
    (by rw [assignedIds_store999]; exact (List.nodup_range 1000).filter _)
    (by
      rw [assignedIds_store999]
      intro i hi
      exact List.mem_range.1 (List.mem_of_mem_filter hi))
    (by
      show ((List.range 1000).filter (fun i => i != 7)).length = 999
      decide)
    (by rw [assignedIds_store999]; simp)
    (storeLookup_map_none 4242 _ _ (by simp [List.mem_filter]))

set_option maxRecDepth 100000 in
/-- Counterexample to Claim C9 as frozen: Full Reset on a store with
N = 1 record but a guild of two non-bot members ends with 2 records,
not 1 — the final record count follows the guild member list, not the
prior store size. -/
theorem refresh_count_counterexample :
    (refreshid (fun _ => 0) [⟨1, "ann", false⟩, ⟨2, "ben", false⟩] []
      (fun _ => true) [(5, ⟨3, "003", "cal"⟩)]).store.length = 2 ∧
    ([(5, (⟨3, "003", "cal"⟩ : MemberRecord))] : Store).length = 1 := by
  constructor
  · decide
  · rfl

/-- Claim C9, amended: Full Reset clears the store and runs the
allocator once per non-bot member (the invocation list is exactly the
non-bot members, in order); the store it ends with has exactly one
record per non-bot guild member (provided the members are distinct and
number at most 1000), and after the clear the whole id range [0,999] is
available again, so every previously used numeric id is eligible for
reuse (nothing ties a member to its old id). -/
theorem refresh_repopulates_amended (ks : Nat → Nat) (members : List Member)
    (roles : List String) (canDelete : String → Bool) (store : Store)
    (hnd : (members.map Member.id).Nodup)
    (hcount : (members.filter (fun m => !m.bot)).length ≤ 1000) :
    (refreshid ks members roles canDelete store).store.length =
      (members.filter (fun m => !m.bot)).length ∧
    (refreshid ks members roles canDelete store).invoked =
      (members.filter (fun m => !m.bot)).map Member.id ∧
    availableIds ([] : Store) = allPossibleIds := by
  have hg : GoodStore ([] : Store) := ⟨List.nodup_nil, by simp [assignedIds]⟩
  obtain ⟨ha, hb, _⟩ := refreshGo_spec ks 0 members
    (roles.filter (fun r => !(r.startsWith (ROLE_PFX ++ " #") && canDelete r)))
    [] [] hg (fun _ _ => rfl) hnd (by simpa using hcount)
  unfold refreshid
  dsimp only
  exact ⟨by simpa using ha, by simpa using hb, availableIds_nil⟩

/-- Witness for the amended C9: a prior one-record store, a guild with
one non-bot and one bot member. -/
theorem refresh_repopulates_amended_witness :
    (refreshid (fun _ => 0) [⟨1, "ann", false⟩, ⟨2, "bee", true⟩] ["Member #003"]
      (fun _ => true) [(5, ⟨3, "003", "cal"⟩)]).store.length =
      (([⟨1, "ann", false⟩, ⟨2, "bee", true⟩] : List Member).filter
        (fun m => !m.bot)).length ∧
    (refreshid (fun _ => 0) [⟨1, "ann", false⟩, ⟨2, "bee", true⟩] ["Member #003"]
      (fun _ => true) [(5, ⟨3, "003", "cal"⟩)]).invoked =
      (([⟨1, "ann", false⟩, ⟨2, "bee", true⟩] : List Member).filter
        (fun m => !m.bot)).map Member.id ∧
    availableIds ([] : Store) = allPossibleIds :=
  refresh_repopulates_amended (fun _ => 0) [⟨1, "ann", false⟩, ⟨2, "bee", true⟩]
    ["Member #003"] (fun _ => true) [(5, ⟨3, "003", "cal"⟩)]
    (by decide) (by decide)

/-- Claim C10: the join handler sends a welcome message only when the
allocator returned a non-absent id, a welcome channel id is configured
and truthy, and the channel resolves; in particular (contrapositive of
the first conjunct) when allocation fails with scarcity the allocator
returns None and no welcome message claiming an id is sent. -/
theorem welcome_only_on_assignment (k : Nat) (m : Member) (roles : List String)
    (store : Store) (w : Option Nat) (resolvable : Nat → Bool)
    (h : (on_member_join k m roles store w resolvable).sent.isSome = true) :
    (on_member_join k m roles store w resolvable).assigned.isSome = true ∧
    ∃ c, w = some c ∧ c ≠ 0 ∧ resolvable c = true := by
  unfold on_member_join at h ⊢
  dsimp only at h ⊢
  cases hr : (assign_id_and_role k m roles store).result with
  | none =>
    rw [hr] at h
    cases w <;> simp at h
  | some s =>
    cases hw : w with
    | none =>
      rw [hr, hw] at h
      simp at h
    | some c =>
      rw [hr, hw] at h
      dsimp only at h
      by_cases hcond : (!s.isEmpty && c != 0 && resolvable c) = true
      · have hc := hcond
        simp only [Bool.and_eq_true] at hc
        refine ⟨rfl, c, rfl, ?_, hc.2⟩
        simpa using hc.1.2
      · rw [if_neg hcond] at h
        simp at h

set_option maxRecDepth 20000 in
/-- Witness for C10: a join on the empty store with a configured,
resolvable channel does send the welcome, and the theorem recovers the
assignment and channel facts. -/
theorem welcome_only_on_assignment_witness :
    (on_member_join 0 ⟨1, "amy", false⟩ [] [] (some 5)
      (fun _ => true)).assigned.isSome = true ∧
    ∃ c, (some 5 : Option Nat) = some c ∧ c ≠ 0 ∧ (true : Bool) = true :=
  welcome_only_on_assignment 0 ⟨1, "amy", false⟩ [] [] (some 5) (fun _ => true)
    (by decide)
